import Mathlib

/-
Verification development for the query batching/override coordinator
(QueryProcessor) of the search-ui repository, and for the
DynamicFacetValue selection toggle.

The QueryProcessor implementation file (src/magicbox/QueryProcessor.ts) is
not among the provided sources; only its unit test
(src/unitTests/magicbox/QueryProcessorTest.ts) is. The coordinator is
therefore modelled from the specification (spec.md, sections 3 to 5): a
state machine driven by scheduled callbacks (lookup settlements, timer
fires, override and submit calls) on a single cooperative scheduler, with
a monotonically increasing generation token guarding every callback.
-/

namespace QueryProcessorModel

/-- Modelled from the spec: the ProcessingStatus enum of section 3 of the
spec, for the missing src/magicbox/QueryProcessor.ts. Finished means all
lookups settled; TimedOut means the timeout elapsed first; Overriden means
a newer run or an explicit cancellation preempted this run. -/
inductive ProcessingStatus where
| Finished
| TimedOut
| Overriden
deriving DecidableEq, Repr

/-- Modelled from the spec: the ProcessOutcome record of section 3 of the
spec for the missing src/magicbox/QueryProcessor.ts: a terminal status and
an ordered sequence of result items. -/
structure ProcessOutcome (α : Type) where
  status : ProcessingStatus
  results : List α
deriving DecidableEq, Repr

/-- Modelled from the spec: one lookup supplied to submit, for the missing
src/magicbox/QueryProcessor.ts. Section 9 of the spec asks for a tagged
variant: an already available list of items, or a pending asynchronous
operation that later yields items or fails. -/
inductive Lookup (α : Type) where
| immediate (items : List α)
| pending
deriving DecidableEq

/-- Modelled from the spec: the construction-time configuration of the
coordinator (section 4.1), an optional timeout duration. -/
structure Config where
  timeout : Option Nat
deriving DecidableEq, Repr

/-- Modelled from the spec: one ProcessingRun (section 3) of the missing
src/magicbox/QueryProcessor.ts: its generation token and the ordered
accumulation buffer, one slot per lookup index, none meaning the lookup at
that index has not settled yet. -/
structure RunState (α : Type) where
  gen : Nat
  contributions : List (Option (List α))
deriving DecidableEq

/-- Modelled from the spec: the full coordinator state for the missing
src/magicbox/QueryProcessor.ts. resolved is the settlement log of the
futures returned by submit: the pair (g, o) is appended exactly when the
run of generation g settles its future with outcome o. timersStarted logs
the generations for which a one-shot timeout timer was started. -/
structure ProcState (α : Type) where
  currentGen : Nat
  activeRun : Option (RunState α)
  resolved : List (Nat × ProcessOutcome α)
  timersStarted : List Nat
deriving DecidableEq

/-- Modelled from the spec: the scheduled callbacks and calls that drive
the coordinator (section 5 of the spec): a submit call, an explicit
overrideIfProcessing call, the settlement of the lookup at index i of
generation g (none encodes a rejected lookup), and the firing of the
timeout timer of generation g. -/
inductive Event (α : Type) where
| submit (lookups : List (Lookup α))
| override
| settle (g i : Nat) (res : Option (List α))
| timerFire (g : Nat)

/-- The state of the coordinator right after construction: no run is in
flight, no future has settled, no timer was started. -/
def initState (α : Type) : ProcState α :=
  { currentGen := 0, activeRun := none, resolved := [], timersStarted := [] }

/-- The result sequence assembled from an accumulation buffer: the items of
the settled slots, concatenated in slot (lookup index) order. -/
def settledResults (cs : List (Option (List α))) : List α :=
  (cs.filterMap id).flatten

/-- Whether slot i of the accumulation buffer exists and is still
unsettled. -/
def slotPending (cs : List (Option (List α))) (i : Nat) : Bool :=
  decide (i < cs.length) && (cs.getD i (some [])).isNone

/-- Modelled from the spec: the settlement callback of one lookup (section
4.1 step 3 and section 5) of the missing src/magicbox/QueryProcessor.ts. A
stale generation token, an absent run or an already settled slot make the
callback a no-op. Success records the items at the lookup index; failure
records an empty contribution there. When the last slot settles, the run
resolves with Finished and the concatenation in index order. -/
def stepSettle (s : ProcState α) (g i : Nat) (res : Option (List α)) : ProcState α :=
  match s.activeRun with
  | none => s
  | some r =>
    if r.gen = g ∧ slotPending r.contributions i then
      let cs := r.contributions.set i (some (res.getD []))
      if cs.all Option.isSome then
        { s with activeRun := none,
                 resolved := s.resolved ++ [(g, ⟨ProcessingStatus.Finished, settledResults cs⟩)] }
      else
        { s with activeRun := some ⟨r.gen, cs⟩ }
    else s

/-- Modelled from the spec: the timeout callback (section 4.1 step 4) of
the missing src/magicbox/QueryProcessor.ts. It only acts when a timer was
started for g and the run of generation g is still in flight; it then
resolves the run with TimedOut and the items settled so far, in index
order, and makes the run terminal. -/
def stepTimer (s : ProcState α) (g : Nat) : ProcState α :=
  match s.activeRun with
  | none => s
  | some r =>
    if r.gen = g ∧ g ∈ s.timersStarted then
      { s with activeRun := none,
               resolved := s.resolved ++ [(g, ⟨ProcessingStatus.TimedOut, settledResults r.contributions⟩)] }
    else s

/-- Modelled from the spec: overrideIfProcessing (section 4.1) of the
missing src/magicbox/QueryProcessor.ts. With no run in flight it is a
no-op; otherwise it resolves the in-flight run with Overriden and an empty
result sequence and retires the run. -/
def applyOverride (s : ProcState α) : ProcState α :=
  match s.activeRun with
  | none => s
  | some r =>
    { s with activeRun := none,
             resolved := s.resolved ++ [(r.gen, ⟨ProcessingStatus.Overriden, []⟩)] }

/-- The initial accumulation buffer for a list of lookups: an already
available lookup occupies its slot at once; a pending one leaves its slot
unsettled. -/
def initialContribs (lookups : List (Lookup α)) : List (Option (List α)) :=
  lookups.map fun lk =>
    match lk with
    | Lookup.immediate items => some items
    | Lookup.pending => none

/-- Modelled from the spec: submit (section 4.1) of the missing
src/magicbox/QueryProcessor.ts. It first performs the implicit override of
any in-flight run, mints the next generation token, resolves at once with
Finished for an empty lookup list (no timer started), and otherwise starts
the timer when a timeout is configured, seats the already available
lookups, and either resolves at once (everything already settled) or
leaves the new run in flight. -/
def stepSubmit (cfg : Config) (s : ProcState α) (lookups : List (Lookup α)) : ProcState α :=
  let s1 := applyOverride s
  let g := s1.currentGen + 1
  if lookups.isEmpty then
    { s1 with currentGen := g,
              resolved := s1.resolved ++ [(g, ⟨ProcessingStatus.Finished, []⟩)] }
  else
    let timers := if cfg.timeout.isSome then s1.timersStarted ++ [g] else s1.timersStarted
    let contribs := initialContribs lookups
    if contribs.all Option.isSome then
      { currentGen := g, activeRun := none,
        resolved := s1.resolved ++ [(g, ⟨ProcessingStatus.Finished, settledResults contribs⟩)],
        timersStarted := timers }
    else
      { currentGen := g, activeRun := some ⟨g, contribs⟩,
        resolved := s1.resolved, timersStarted := timers }

/-- One scheduler turn of the coordinator: dispatch of a single call or
scheduled callback. -/
def step (cfg : Config) (s : ProcState α) (e : Event α) : ProcState α :=
  match e with
  | Event.submit lookups => stepSubmit cfg s lookups
  | Event.override => applyOverride s
  | Event.settle g i res => stepSettle s g i res
  | Event.timerFire g => stepTimer s g

/-- Execution of a sequence of scheduler turns. -/
def exec (cfg : Config) (s : ProcState α) (es : List (Event α)) : ProcState α :=
  es.foldl (step cfg) s

/-- The settled outcome of the future returned for generation g, when that
future has settled. -/
def outcomeOf (s : ProcState α) (g : Nat) : Option (ProcessOutcome α) :=
  s.resolved.lookup g

/-- The accumulation buffer of a run of n lookups delivering f i at index
i, after exactly the indices of l have settled. -/
def mkContribs (n : Nat) (f : Nat → List α) (l : List Nat) : List (Option (List α)) :=
  (List.range n).map fun i => if i ∈ l then some (f i) else none

/-- Folding the settlement callbacks of generation g over a settlement
order, the lookup at index i delivering res i (none for a rejection). -/
def foldSettles (cfg : Config) (g : Nat) (res : Nat → Option (List α))
    (order : List Nat) (s : ProcState α) : ProcState α :=
  order.foldl (fun st i => step cfg st (Event.settle g i (res i))) s

/-- The items a lookup settlement records: its items on success, the empty
contribution on failure. -/
def delivered (res : Nat → Option (List α)) : Nat → List α :=
  fun i => (res i).getD []

/-- Well-formedness of a coordinator state: every settled generation is at
most the current one, no generation settles twice, and the in-flight run,
when present, carries the current generation and has not settled. -/
def WF (s : ProcState α) : Prop :=
  (∀ g ∈ s.resolved.map Prod.fst, g ≤ s.currentGen) ∧
  (s.resolved.map Prod.fst).Nodup ∧
  ∀ r ∈ s.activeRun, r.gen = s.currentGen ∧ r.gen ∉ s.resolved.map Prod.fst

end QueryProcessorModel

namespace DynamicFacetModel

/-- The facet value states referenced by DynamicFacetValue
(src/unnamed/part_000). The defining file (rest/Facet/FacetValueState) is
not among the sources; the constructors the source code reads and writes
are idle and selected, and excluded stands for the remaining state of the
REST facet API. -/
inductive FacetValueState where
| idle
| selected
| excluded
deriving DecidableEq, Repr

/-- The data fields of DynamicFacetValue (src/unnamed/part_000, lines
274 to 297) that its state operations read or write, together with the
plain descriptive fields. The renderer, the range bounds and the parent
facet back-reference are rendering and analytics collaborators that the
selection operations never touch, and are omitted. -/
structure DynamicFacetValue where
  value : String
  state : FacetValueState
  preventAutoSelect : Bool
  numberOfResults : Nat
  position : Nat
  displayValue : String
deriving DecidableEq, Repr

/-- The isSelected getter (src/unnamed/part_000, lines 299 to 301): the
state equals FacetValueState.selected. -/
def DynamicFacetValue.isSelected (v : DynamicFacetValue) : Bool :=
  v.state = FacetValueState.selected

/-- The isIdle getter (src/unnamed/part_000, lines 303 to 305). -/
def DynamicFacetValue.isIdle (v : DynamicFacetValue) : Bool :=
  v.state = FacetValueState.idle

/-- The select method (src/unnamed/part_000, lines 311 to 313): sets the
state to selected. -/
def DynamicFacetValue.select (v : DynamicFacetValue) : DynamicFacetValue :=
  { v with state := FacetValueState.selected }

/-- The deselect method (src/unnamed/part_000, lines 315 to 318): sets the
state to idle and preventAutoSelect to true. -/
def DynamicFacetValue.deselect (v : DynamicFacetValue) : DynamicFacetValue :=
  { v with state := FacetValueState.idle, preventAutoSelect := true }

/-- The toggleSelect method (src/unnamed/part_000, lines 307 to 309):
deselect when the state is selected, select otherwise. -/
def DynamicFacetValue.toggleSelect (v : DynamicFacetValue) : DynamicFacetValue :=
  if v.state = FacetValueState.selected then v.deselect else v.select

end DynamicFacetModel

namespace QueryProcessorModel

theorem mkContribs_length (n : Nat) (f : Nat → List α) (l : List Nat) :
    (mkContribs n f l).length = n := by
  simp [mkContribs]

theorem mkContribs_nil (n : Nat) (f : Nat → List α) :
    mkContribs n f [] = List.replicate n none := by
  simp [mkContribs, List.map_const']

theorem mkContribs_congr (n : Nat) (f : Nat → List α) (l₁ l₂ : List Nat)
    (h : ∀ i, i ∈ l₁ ↔ i ∈ l₂) : mkContribs n f l₁ = mkContribs n f l₂ := by
  unfold mkContribs
  apply List.map_congr_left
  intro i _
  simp only [h i]

theorem mkContribs_set (n : Nat) (f : Nat → List α) (l : List Nat) (j : Nat) (hj : j < n) :
    (mkContribs n f l).set j (some (f j)) = mkContribs n f (j :: l) := by
  apply List.ext_getElem
  · simp [mkContribs]
  · intro i h1 h2
    rw [List.getElem_set]
    simp only [mkContribs, List.getElem_map, List.getElem_range, List.mem_cons]
    rcases eq_or_ne j i with rfl | hne
    · simp
    · simp [hne, Ne.symm hne]

theorem slotPending_mkContribs (n : Nat) (f : Nat → List α) (l : List Nat) (i : Nat)
    (h : i < n) (hnot : i ∉ l) : slotPending (mkContribs n f l) i = true := by
  unfold slotPending
  have hlen : i < (mkContribs n f l).length := by rw [mkContribs_length]; exact h
  rw [List.getD_eq_getElem _ _ hlen]
  simp [mkContribs, hnot, h]

theorem mkContribs_all_isSome_true (n : Nat) (f : Nat → List α) (l : List Nat)
    (h : ∀ j, j < n → j ∈ l) : (mkContribs n f l).all Option.isSome = true := by
  simp only [List.all_eq_true, mkContribs, List.mem_map, List.mem_range]
  rintro o ⟨i, hi, rfl⟩
  simp [h i hi]

theorem mkContribs_all_isSome_false (n : Nat) (f : Nat → List α) (l : List Nat) (j : Nat)
    (hj : j < n) (hnot : j ∉ l) : (mkContribs n f l).all Option.isSome = false := by
  rw [Bool.eq_false_iff]
  simp only [ne_eq, List.all_eq_true]
  intro hall
  have hmem : (none : Option (List α)) ∈ mkContribs n f l := by
    simp only [mkContribs, List.mem_map, List.mem_range]
    exact ⟨j, hj, by simp [hnot]⟩
  simpa using hall none hmem

theorem filterMap_ite (l : List Nat) (p : Nat → Prop) [DecidablePred p] (f : Nat → List α) :
    l.filterMap (fun i => if p i then some (f i) else none)
      = (l.filter fun i => decide (p i)).map f := by
  induction l with
  | nil => rfl
  | cons x xs ih => by_cases h : p x <;> simp [h, ih]

theorem settledResults_mkContribs (n : Nat) (f : Nat → List α) (l : List Nat) :
    settledResults (mkContribs n f l)
      = (((List.range n).filter fun i => decide (i ∈ l)).map f).flatten := by
  unfold settledResults mkContribs
  rw [List.filterMap_map]
  rw [show (id ∘ fun i => if i ∈ l then some (f i) else none)
        = (fun i => if i ∈ l then some (f i) else none) from rfl]
  rw [filterMap_ite]

theorem settledResults_mkContribs_full (n : Nat) (f : Nat → List α) (l : List Nat)
    (h : ∀ j, j < n → j ∈ l) :
    settledResults (mkContribs n f l) = ((List.range n).map f).flatten := by
  rw [settledResults_mkContribs]
  have : ((List.range n).filter fun i => decide (i ∈ l)) = List.range n := by
    apply List.filter_eq_self.mpr
    intro a ha
    simp [h a (List.mem_range.mp ha)]
  rw [this]

theorem range_map_getD (batches : List (List α)) :
    (List.range batches.length).map (fun i => batches.getD i []) = batches := by
  apply List.ext_getElem
  · simp
  · intro i h1 h2
    simp only [List.getElem_map, List.getElem_range]
    exact List.getD_eq_getElem batches [] h2

theorem replicate_none_all_isSome (n : Nat) (hn : n ≠ 0) :
    (List.replicate n (none : Option (List α))).all Option.isSome = false := by
  cases n with
  | zero => exact absurd rfl hn
  | succ m => simp [List.replicate_succ]

theorem stepSettle_noRun (s : ProcState α) (g i : Nat) (res : Option (List α))
    (h : s.activeRun = none) : stepSettle s g i res = s := by
  unfold stepSettle
  rw [h]

theorem stepSettle_stale (s : ProcState α) (r : RunState α) (g i : Nat) (res : Option (List α))
    (hact : s.activeRun = some r) (hne : r.gen ≠ g) : stepSettle s g i res = s := by
  unfold stepSettle
  rw [hact]
  simp [hne]

theorem stepSettle_record (s : ProcState α) (r : RunState α) (g i : Nat) (res : Option (List α))
    (hact : s.activeRun = some r) (hgen : r.gen = g)
    (hslot : slotPending r.contributions i = true) :
    stepSettle s g i res =
      if (r.contributions.set i (some (res.getD []))).all Option.isSome then
        { s with activeRun := none,
                 resolved := s.resolved ++
                   [(g, ⟨ProcessingStatus.Finished,
                         settledResults (r.contributions.set i (some (res.getD [])))⟩)] }
      else
        { s with activeRun := some ⟨r.gen, r.contributions.set i (some (res.getD []))⟩ } := by
  unfold stepSettle
  rw [hact]
  simp [hgen, hslot]

theorem stepTimer_noRun (s : ProcState α) (g : Nat) (h : s.activeRun = none) :
    stepTimer s g = s := by
  unfold stepTimer
  rw [h]

theorem stepTimer_stale (s : ProcState α) (r : RunState α) (g : Nat)
    (hact : s.activeRun = some r) (h : ¬(r.gen = g ∧ g ∈ s.timersStarted)) :
    stepTimer s g = s := by
  unfold stepTimer
  rw [hact]
  simp only [if_neg h]

theorem stepTimer_fire (s : ProcState α) (r : RunState α) (g : Nat)
    (hact : s.activeRun = some r) (hgen : r.gen = g) (htm : g ∈ s.timersStarted) :
    stepTimer s g =
      { s with activeRun := none,
               resolved := s.resolved ++
                 [(g, ⟨ProcessingStatus.TimedOut, settledResults r.contributions⟩)] } := by
  unfold stepTimer
  rw [hact]
  simp [hgen, htm]

theorem applyOverride_noRun (s : ProcState α) (h : s.activeRun = none) :
    applyOverride s = s := by
  unfold applyOverride
  rw [h]

theorem applyOverride_run (s : ProcState α) (r : RunState α) (hact : s.activeRun = some r) :
    applyOverride s =
      { s with activeRun := none,
               resolved := s.resolved ++ [(r.gen, ⟨ProcessingStatus.Overriden, []⟩)] } := by
  unfold applyOverride
  rw [hact]

theorem applyOverride_currentGen (s : ProcState α) :
    (applyOverride s).currentGen = s.currentGen := by
  cases hact : s.activeRun with
  | none => rw [applyOverride_noRun s hact]
  | some r => rw [applyOverride_run s r hact]

theorem applyOverride_timersStarted (s : ProcState α) :
    (applyOverride s).timersStarted = s.timersStarted := by
  cases hact : s.activeRun with
  | none => rw [applyOverride_noRun s hact]
  | some r => rw [applyOverride_run s r hact]

theorem applyOverride_activeRun (s : ProcState α) : (applyOverride s).activeRun = none := by
  cases hact : s.activeRun with
  | none => rw [applyOverride_noRun s hact, hact]
  | some r => rw [applyOverride_run s r hact]

theorem applyOverride_resolved (s : ProcState α) :
    (applyOverride s).resolved = s.resolved
    ∨ ∃ r, s.activeRun = some r
        ∧ (applyOverride s).resolved = s.resolved ++ [(r.gen, ⟨ProcessingStatus.Overriden, []⟩)] := by
  cases hact : s.activeRun with
  | none => left; rw [applyOverride_noRun s hact]
  | some r => right; exact ⟨r, rfl, by rw [applyOverride_run s r hact]⟩

theorem lookup_append_right {β : Type} (g : Nat) (l1 l2 : List (Nat × β))
    (h : ∀ p ∈ l1, p.1 ≠ g) : (l1 ++ l2).lookup g = l2.lookup g := by
  induction l1 with
  | nil => rfl
  | cons x xs ih =>
    obtain ⟨k, v⟩ := x
    have hk : k ≠ g := h (k, v) (by simp)
    have hbeq : (g == k) = false := by simp [Ne.symm hk]
    simp only [List.cons_append, List.lookup, hbeq]
    exact ih fun p hp => h p (by simp [hp])

theorem lookup_append_left {β : Type} (g : Nat) (l1 l2 : List (Nat × β)) (v : β)
    (h : l1.lookup g = some v) : (l1 ++ l2).lookup g = some v := by
  induction l1 with
  | nil => simp [List.lookup] at h
  | cons x xs ih =>
    obtain ⟨k, v'⟩ := x
    cases hbeq : (g == k) with
    | true => simp only [List.lookup, hbeq] at h; simp only [List.cons_append, List.lookup, hbeq]; exact h
    | false =>
      simp only [List.lookup, hbeq] at h
      simp only [List.cons_append, List.lookup, hbeq]
      exact ih h

theorem lookup_singleton {β : Type} (g : Nat) (v : β) : List.lookup g [(g, v)] = some v := by
  simp [List.lookup]

theorem foldSettles_nil (cfg : Config) (g : Nat) (res : Nat → Option (List α))
    (s : ProcState α) : foldSettles cfg g res [] s = s := rfl

theorem foldSettles_cons (cfg : Config) (g : Nat) (res : Nat → Option (List α))
    (j : Nat) (rest : List Nat) (s : ProcState α) :
    foldSettles cfg g res (j :: rest) s
      = foldSettles cfg g res rest (step cfg s (Event.settle g j (res j))) := rfl

theorem foldSettles_pending (cfg : Config) (g n : Nat) (res : Nat → Option (List α))
    (rest : List Nat) :
    ∀ (l : List Nat) (s : ProcState α),
    (l ++ rest).Nodup → (∀ i ∈ l ++ rest, i < n) →
    (∃ j, j < n ∧ j ∉ l ++ rest) →
    s.activeRun = some ⟨g, mkContribs n (delivered res) l⟩ →
    foldSettles cfg g res rest s
      = { s with activeRun := some ⟨g, mkContribs n (delivered res) (l ++ rest)⟩ } := by
  induction rest with
  | nil =>
    intro l s _ _ _ hact
    rw [foldSettles_nil, List.append_nil, ← hact]
  | cons j rest' ih =>
    intro l s hnd hlt hmiss hact
    have hperm : (l ++ j :: rest').Perm (j :: (l ++ rest')) := List.perm_middle
    have hnd' : (j :: (l ++ rest')).Nodup := hperm.nodup hnd
    have hjn : j < n := hlt j (by simp)
    have hjl : j ∉ l := fun hmem => (List.nodup_cons.mp hnd').1 (by simp [hmem])
    obtain ⟨jm, hjm, hjmnot⟩ := hmiss
    have hjmnot' : jm ∉ j :: l := by
      intro hmem
      rcases List.mem_cons.mp hmem with rfl | hmem'
      · exact hjmnot (by simp)
      · exact hjmnot (by simp [hmem'])
    have hstep : step cfg s (Event.settle g j (res j))
        = { s with activeRun := some ⟨g, mkContribs n (delivered res) (j :: l)⟩ } := by
      have hrec := stepSettle_record s ⟨g, mkContribs n (delivered res) l⟩ g j (res j) hact rfl
        (slotPending_mkContribs n (delivered res) l j hjn hjl)
      have hset : (mkContribs n (delivered res) l).set j (some ((res j).getD []))
          = mkContribs n (delivered res) (j :: l) := mkContribs_set n (delivered res) l j hjn
      have hall : (mkContribs n (delivered res) (j :: l)).all Option.isSome = false :=
        mkContribs_all_isSome_false n (delivered res) (j :: l) jm hjm hjmnot'
      rw [show step cfg s (Event.settle g j (res j)) = stepSettle s g j (res j) from rfl, hrec]
      simp only [delivered] at hset
      rw [hset, hall]
      simp
    rw [foldSettles_cons, hstep]
    have hres := ih (j :: l) { s with activeRun := some ⟨g, mkContribs n (delivered res) (j :: l)⟩ }
      hnd' (fun i hi => hlt i (hperm.mem_iff.mpr hi))
      ⟨jm, hjm, fun hmem => hjmnot (hperm.mem_iff.mpr hmem)⟩ rfl
    rw [hres, mkContribs_congr n (delivered res) ((j :: l) ++ rest') (l ++ j :: rest')
      (fun i => hperm.symm.mem_iff)]

theorem foldSettles_finish (cfg : Config) (g n : Nat) (res : Nat → Option (List α))
    (rest : List Nat) :
    ∀ (l : List Nat) (s : ProcState α),
    (l ++ rest).Perm (List.range n) → rest ≠ [] →
    s.activeRun = some ⟨g, mkContribs n (delivered res) l⟩ →
    foldSettles cfg g res rest s
      = { s with activeRun := none,
                 resolved := s.resolved ++
                   [(g, ⟨ProcessingStatus.Finished,
                         ((List.range n).map (delivered res)).flatten⟩)] } := by
  induction rest with
  | nil => intro l s _ hne _; exact absurd rfl hne
  | cons j rest' ih =>
    intro l s hperm hne hact
    have hnd : (l ++ j :: rest').Nodup := hperm.symm.nodup (List.nodup_range n)
    have hmid : (l ++ j :: rest').Perm (j :: (l ++ rest')) := List.perm_middle
    have hnd' : (j :: (l ++ rest')).Nodup := hmid.nodup hnd
    have hjn : j < n := List.mem_range.mp (hperm.subset (by simp))
    have hjl : j ∉ l := fun hmem => (List.nodup_cons.mp hnd').1 (by simp [hmem])
    have hrec := stepSettle_record s ⟨g, mkContribs n (delivered res) l⟩ g j (res j) hact rfl
      (slotPending_mkContribs n (delivered res) l j hjn hjl)
    have hset : (mkContribs n (delivered res) l).set j (some ((res j).getD []))
        = mkContribs n (delivered res) (j :: l) := mkContribs_set n (delivered res) l j hjn
    cases rest' with
    | nil =>
      have hall : (mkContribs n (delivered res) (j :: l)).all Option.isSome = true := by
        apply mkContribs_all_isSome_true
        intro i hi
        have : i ∈ l ++ [j] := hperm.symm.subset (List.mem_range.mpr hi)
        rcases List.mem_append.mp this with hmem | hmem
        · exact List.mem_cons.mpr (Or.inr hmem)
        · exact List.mem_cons.mpr (Or.inl (by simpa using hmem))
      have hfull : settledResults (mkContribs n (delivered res) (j :: l))
          = ((List.range n).map (delivered res)).flatten := by
        apply settledResults_mkContribs_full
        intro i hi
        have : i ∈ l ++ [j] := hperm.symm.subset (List.mem_range.mpr hi)
        rcases List.mem_append.mp this with hmem | hmem
        · exact List.mem_cons.mpr (Or.inr hmem)
        · exact List.mem_cons.mpr (Or.inl (by simpa using hmem))
      rw [foldSettles_cons, foldSettles_nil]
      rw [show step cfg s (Event.settle g j (res j)) = stepSettle s g j (res j) from rfl, hrec]
      simp only [delivered] at hset
      rw [hset, hall, hfull]
      simp
    | cons j2 rest'' =>
      have hj2 : j2 ∈ j :: (l ++ (j2 :: rest'')) := by simp
      have hj2n : j2 < n := List.mem_range.mp (hperm.subset (by simp))
      have hj2not : j2 ∉ j :: l := by
        intro hmem
        rcases List.mem_cons.mp hmem with rfl | hmem'
        · exact (List.nodup_cons.mp hnd').1 (by simp)
        · have := (List.nodup_cons.mp hnd').2
          rcases List.nodup_append.mp this with ⟨_, _, hdisj⟩
          exact hdisj hmem' (by simp)
      have hall : (mkContribs n (delivered res) (j :: l)).all Option.isSome = false :=
        mkContribs_all_isSome_false n (delivered res) (j :: l) j2 hj2n hj2not
      have hstep : step cfg s (Event.settle g j (res j))
          = { s with activeRun := some ⟨g, mkContribs n (delivered res) (j :: l)⟩ } := by
        rw [show step cfg s (Event.settle g j (res j)) = stepSettle s g j (res j) from rfl, hrec]
        simp only [delivered] at hset
        rw [hset, hall]
        simp
      rw [foldSettles_cons, hstep]
      have hres := ih (j :: l)
        { s with activeRun := some ⟨g, mkContribs n (delivered res) (j :: l)⟩ }
        (hmid.symm.trans hperm) (by simp) rfl
      rw [hres]

theorem stepSettle_noAct (s : ProcState α) (r : RunState α) (g i : Nat) (res : Option (List α))
    (hact : s.activeRun = some r)
    (h : ¬(r.gen = g ∧ slotPending r.contributions i = true)) :
    stepSettle s g i res = s := by
  unfold stepSettle
  rw [hact]
  simp only [if_neg h]

theorem stepSubmit_emptyCase (cfg : Config) (s : ProcState α) (lookups : List (Lookup α))
    (h : lookups.isEmpty = true) :
    stepSubmit cfg s lookups =
      { currentGen := (applyOverride s).currentGen + 1,
        activeRun := (applyOverride s).activeRun,
        resolved := (applyOverride s).resolved
          ++ [((applyOverride s).currentGen + 1, ⟨ProcessingStatus.Finished, []⟩)],
        timersStarted := (applyOverride s).timersStarted } := by
  unfold stepSubmit
  simp only [h, if_true]

theorem stepSubmit_immediates (cfg : Config) (s : ProcState α) (lookups : List (Lookup α))
    (hemp : lookups.isEmpty = false)
    (hall : (initialContribs lookups).all Option.isSome = true) :
    stepSubmit cfg s lookups =
      { currentGen := (applyOverride s).currentGen + 1, activeRun := none,
        resolved := (applyOverride s).resolved
          ++ [((applyOverride s).currentGen + 1,
               ⟨ProcessingStatus.Finished, settledResults (initialContribs lookups)⟩)],
        timersStarted :=
          if cfg.timeout.isSome then
            (applyOverride s).timersStarted ++ [(applyOverride s).currentGen + 1]
          else (applyOverride s).timersStarted } := by
  unfold stepSubmit
  simp only [hemp, Bool.false_eq_true, if_false, hall, if_true]

theorem stepSubmit_inflight (cfg : Config) (s : ProcState α) (lookups : List (Lookup α))
    (hemp : lookups.isEmpty = false)
    (hall : (initialContribs lookups).all Option.isSome = false) :
    stepSubmit cfg s lookups =
      { currentGen := (applyOverride s).currentGen + 1,
        activeRun := some ⟨(applyOverride s).currentGen + 1, initialContribs lookups⟩,
        resolved := (applyOverride s).resolved,
        timersStarted :=
          if cfg.timeout.isSome then
            (applyOverride s).timersStarted ++ [(applyOverride s).currentGen + 1]
          else (applyOverride s).timersStarted } := by
  unfold stepSubmit
  simp only [hemp, Bool.false_eq_true, if_false, hall]

theorem submit_replicate_state (cfg : Config) (s : ProcState α) (n : Nat) (hn : n ≠ 0) :
    step cfg s (Event.submit (List.replicate n (Lookup.pending : Lookup α))) =
      { currentGen := s.currentGen + 1,
        activeRun := some ⟨s.currentGen + 1, List.replicate n none⟩,
        resolved := (applyOverride s).resolved,
        timersStarted :=
          if cfg.timeout.isSome then s.timersStarted ++ [s.currentGen + 1]
          else s.timersStarted } := by
  have hemp : (List.replicate n (Lookup.pending : Lookup α)).isEmpty = false := by
    cases n with
    | zero => exact absurd rfl hn
    | succ m => rfl
  have hcontribs : initialContribs (List.replicate n (Lookup.pending : Lookup α))
      = List.replicate n (none : Option (List α)) := by
    simp [initialContribs, List.map_replicate]
  have hall : (initialContribs (List.replicate n (Lookup.pending : Lookup α))).all
      Option.isSome = false := by
    rw [hcontribs]
    exact replicate_none_all_isSome n hn
  rw [show step cfg s (Event.submit (List.replicate n (Lookup.pending : Lookup α)))
      = stepSubmit cfg s (List.replicate n Lookup.pending) from rfl]
  rw [stepSubmit_inflight cfg s _ hemp hall]
  rw [hcontribs, applyOverride_currentGen, applyOverride_timersStarted]

theorem WF_resolveCurrent (s : ProcState α) (r : RunState α) (o : ProcessOutcome α)
    (h : WF s) (hact : s.activeRun = some r) (tm : List Nat) :
    WF { currentGen := s.currentGen, activeRun := none,
         resolved := s.resolved ++ [(r.gen, o)], timersStarted := tm } := by
  obtain ⟨h1, h2, h3⟩ := h
  obtain ⟨hg, hnot⟩ := h3 r (Option.mem_def.mpr hact)
  refine ⟨?_, ?_, ?_⟩
  · intro k hk
    simp only [List.map_append, List.mem_append] at hk
    rcases hk with hk | hk
    · exact h1 k hk
    · simp at hk
      show k ≤ s.currentGen
      omega
  · rw [List.map_append]
    refine List.Nodup.append h2 (by simp) ?_
    intro a ha hb
    simp at hb
    subst hb
    exact hnot ha
  · intro r' hr'
    simp [Option.mem_def] at hr'

theorem WF_applyOverride (s : ProcState α) (h : WF s) : WF (applyOverride s) := by
  cases hact : s.activeRun with
  | none => rw [applyOverride_noRun s hact]; exact h
  | some r =>
    rw [applyOverride_run s r hact]
    exact WF_resolveCurrent s r _ h hact s.timersStarted

theorem WF_stepSettle (s : ProcState α) (g i : Nat) (res : Option (List α)) (h : WF s) :
    WF (stepSettle s g i res) := by
  cases hact : s.activeRun with
  | none => rw [stepSettle_noRun s g i res hact]; exact h
  | some r =>
    by_cases hcond : r.gen = g ∧ slotPending r.contributions i = true
    · obtain ⟨hg, hslot⟩ := hcond
      rw [stepSettle_record s r g i res hact hg hslot]
      by_cases hall : (r.contributions.set i (some (res.getD []))).all Option.isSome = true
      · rw [if_pos hall]
        have := WF_resolveCurrent s r
          ⟨ProcessingStatus.Finished,
           settledResults (r.contributions.set i (some (res.getD [])))⟩ h hact s.timersStarted
        rw [← hg] at *
        exact this
      · rw [if_neg hall]
        obtain ⟨h1, h2, h3⟩ := h
        obtain ⟨hgen, hnot⟩ := h3 r (Option.mem_def.mpr hact)
        refine ⟨h1, h2, ?_⟩
        intro r' hr'
        simp only [Option.mem_def, Option.some.injEq] at hr'
        rw [← hr']
        exact ⟨hgen, hnot⟩
    · rw [stepSettle_noAct s r g i res hact hcond]
      exact h

theorem WF_stepTimer (s : ProcState α) (g : Nat) (h : WF s) : WF (stepTimer s g) := by
  cases hact : s.activeRun with
  | none => rw [stepTimer_noRun s g hact]; exact h
  | some r =>
    by_cases hcond : r.gen = g ∧ g ∈ s.timersStarted
    · obtain ⟨hg, htm⟩ := hcond
      rw [stepTimer_fire s r g hact hg htm]
      have := WF_resolveCurrent s r
        ⟨ProcessingStatus.TimedOut, settledResults r.contributions⟩ h hact s.timersStarted
      rw [← hg] at *
      exact this
    · rw [stepTimer_stale s r g hact hcond]
      exact h

theorem WF_freshResolve (t : ProcState α) (o : ProcessOutcome α) (a : Option (RunState α))
    (tm : List Nat) (h : WF t) (ha : a = none) :
    WF { currentGen := t.currentGen + 1, activeRun := a,
         resolved := t.resolved ++ [(t.currentGen + 1, o)], timersStarted := tm } := by
  obtain ⟨h1, h2, _⟩ := h
  subst ha
  refine ⟨?_, ?_, ?_⟩
  · intro k hk
    simp only [List.map_append, List.mem_append] at hk
    show k ≤ t.currentGen + 1
    rcases hk with hk | hk
    · have := h1 k hk
      omega
    · simp at hk
      omega
  · rw [List.map_append]
    refine List.Nodup.append h2 (by simp) ?_
    intro a ha hb
    simp at hb
    subst hb
    have := h1 _ ha
    omega
  · intro r' hr'
    simp [Option.mem_def] at hr'

theorem WF_freshRun (t : ProcState α) (cs : List (Option (List α))) (tm : List Nat)
    (h : WF t) :
    WF { currentGen := t.currentGen + 1, activeRun := some ⟨t.currentGen + 1, cs⟩,
         resolved := t.resolved, timersStarted := tm } := by
  obtain ⟨h1, h2, _⟩ := h
  refine ⟨?_, h2, ?_⟩
  · intro k hk
    have := h1 k hk
    show k ≤ t.currentGen + 1
    omega
  · intro r' hr'
    simp only [Option.mem_def, Option.some.injEq] at hr'
    rw [← hr']
    refine ⟨rfl, ?_⟩
    intro hmem
    dsimp only at hmem
    have := h1 _ hmem
    omega

theorem WF_stepSubmit (cfg : Config) (s : ProcState α) (lookups : List (Lookup α))
    (h : WF s) : WF (stepSubmit cfg s lookups) := by
  have hov : WF (applyOverride s) := WF_applyOverride s h
  by_cases hemp : lookups.isEmpty = true
  · rw [stepSubmit_emptyCase cfg s lookups hemp]
    exact WF_freshResolve (applyOverride s) _ _ _ hov (applyOverride_activeRun s)
  · have hemp' : lookups.isEmpty = false := by
      cases hval : lookups.isEmpty
      · rfl
      · exact absurd hval hemp
    by_cases hall : (initialContribs lookups).all Option.isSome = true
    · rw [stepSubmit_immediates cfg s lookups hemp' hall]
      exact WF_freshResolve (applyOverride s) _ _ _ hov rfl
    · have hall' : (initialContribs lookups).all Option.isSome = false := by
        cases hval : (initialContribs lookups).all Option.isSome
        · rfl
        · exact absurd hval hall
      rw [stepSubmit_inflight cfg s lookups hemp' hall']
      exact WF_freshRun (applyOverride s) _ _ hov

theorem WF_step (cfg : Config) (s : ProcState α) (e : Event α) (h : WF s) :
    WF (step cfg s e) := by
  cases e with
  | submit lookups => exact WF_stepSubmit cfg s lookups h
  | override => exact WF_applyOverride s h
  | settle g i res => exact WF_stepSettle s g i res h
  | timerFire g => exact WF_stepTimer s g h

theorem WF_initState (α : Type) : WF (initState α) := by
  refine ⟨?_, ?_, ?_⟩ <;> simp [initState]

theorem WF_exec (cfg : Config) (s : ProcState α) (es : List (Event α)) (h : WF s) :
    WF (exec cfg s es) := by
  induction es generalizing s with
  | nil => exact h
  | cons e es ih => exact ih (step cfg s e) (WF_step cfg s e h)

theorem applyOverride_resolved_extends (s : ProcState α) :
    ∃ t, (applyOverride s).resolved = s.resolved ++ t := by
  rcases applyOverride_resolved s with h | ⟨r, _, h⟩
  · exact ⟨[], by rw [h, List.append_nil]⟩
  · exact ⟨_, h⟩

theorem step_resolved_extends (cfg : Config) (s : ProcState α) (e : Event α) :
    ∃ t, (step cfg s e).resolved = s.resolved ++ t := by
  obtain ⟨t0, ht0⟩ := applyOverride_resolved_extends s
  cases e with
  | submit lookups =>
    show ∃ t, (stepSubmit cfg s lookups).resolved = s.resolved ++ t
    by_cases hemp : lookups.isEmpty = true
    · rw [stepSubmit_emptyCase cfg s lookups hemp]
      exact ⟨_, by rw [ht0, List.append_assoc]⟩
    · have hemp' : lookups.isEmpty = false := by
        cases hval : lookups.isEmpty
        · rfl
        · exact absurd hval hemp
      by_cases hall : (initialContribs lookups).all Option.isSome = true
      · rw [stepSubmit_immediates cfg s lookups hemp' hall]
        exact ⟨_, by rw [ht0, List.append_assoc]⟩
      · have hall' : (initialContribs lookups).all Option.isSome = false := by
          cases hval : (initialContribs lookups).all Option.isSome
          · rfl
          · exact absurd hval hall
        rw [stepSubmit_inflight cfg s lookups hemp' hall']
        exact ⟨t0, ht0⟩
  | override => exact ⟨t0, ht0⟩
  | settle g i res =>
    show ∃ t, (stepSettle s g i res).resolved = s.resolved ++ t
    cases hact : s.activeRun with
    | none => exact ⟨[], by rw [stepSettle_noRun s g i res hact, List.append_nil]⟩
    | some r =>
      by_cases hcond : r.gen = g ∧ slotPending r.contributions i = true
      · obtain ⟨hg, hslot⟩ := hcond
        rw [stepSettle_record s r g i res hact hg hslot]
        by_cases hall : (r.contributions.set i (some (res.getD []))).all Option.isSome = true
        · rw [if_pos hall]
          exact ⟨_, rfl⟩
        · rw [if_neg hall]
          exact ⟨[], by rw [List.append_nil]⟩
      · exact ⟨[], by rw [stepSettle_noAct s r g i res hact hcond, List.append_nil]⟩
  | timerFire g =>
    show ∃ t, (stepTimer s g).resolved = s.resolved ++ t
    cases hact : s.activeRun with
    | none => exact ⟨[], by rw [stepTimer_noRun s g hact, List.append_nil]⟩
    | some r =>
      by_cases hcond : r.gen = g ∧ g ∈ s.timersStarted
      · obtain ⟨hg, htm⟩ := hcond
        rw [stepTimer_fire s r g hact hg htm]
        exact ⟨_, rfl⟩
      · exact ⟨[], by rw [stepTimer_stale s r g hact hcond, List.append_nil]⟩

theorem outcome_stable_step (cfg : Config) (s : ProcState α) (e : Event α) (g : Nat)
    (v : ProcessOutcome α) (h : outcomeOf s g = some v) :
    outcomeOf (step cfg s e) g = some v := by
  obtain ⟨t, ht⟩ := step_resolved_extends cfg s e
  unfold outcomeOf at h ⊢
  rw [ht]
  exact lookup_append_left g s.resolved t v h

theorem outcome_stable (cfg : Config) (s : ProcState α) (es : List (Event α)) (g : Nat)
    (v : ProcessOutcome α) (h : outcomeOf s g = some v) :
    outcomeOf (exec cfg s es) g = some v := by
  induction es generalizing s with
  | nil => exact h
  | cons e es ih => exact ih (step cfg s e) (outcome_stable_step cfg s e g v h)

theorem applyOverride_keys_le (s : ProcState α) (hWF : WF s) :
    ∀ p ∈ (applyOverride s).resolved, p.1 ≤ s.currentGen := by
  rcases applyOverride_resolved s with h | ⟨r, hact, h⟩
  · rw [h]
    intro p hp
    exact hWF.1 p.1 (List.mem_map.mpr ⟨p, hp, rfl⟩)
  · rw [h]
    intro p hp
    rcases List.mem_append.mp hp with hp' | hp'
    · exact hWF.1 p.1 (List.mem_map.mpr ⟨p, hp', rfl⟩)
    · have hgen := (hWF.2.2 r (Option.mem_def.mpr hact)).1
      simp at hp'
      rw [hp']
      omega

theorem settle_all_resolved (cfg : Config) (s : ProcState α) (n : Nat)
    (res : Nat → Option (List α)) (perm : List Nat)
    (hWF : WF s) (hn : n ≠ 0) (hperm : perm.Perm (List.range n)) :
    (foldSettles cfg (s.currentGen + 1) res perm
        (step cfg s (Event.submit (List.replicate n (Lookup.pending : Lookup α))))).resolved
      = (applyOverride s).resolved
        ++ [(s.currentGen + 1, ⟨ProcessingStatus.Finished,
             ((List.range n).map (delivered res)).flatten⟩)]
    ∧ outcomeOf (foldSettles cfg (s.currentGen + 1) res perm
        (step cfg s (Event.submit (List.replicate n (Lookup.pending : Lookup α)))))
        (s.currentGen + 1)
      = some ⟨ProcessingStatus.Finished, ((List.range n).map (delivered res)).flatten⟩ := by
  have hstate := submit_replicate_state cfg s n hn
  have hpermne : perm ≠ [] := by
    intro hnil
    have hlen := hperm.length_eq
    rw [hnil] at hlen
    simp at hlen
    exact hn hlen.symm
  have hact : (step cfg s (Event.submit (List.replicate n (Lookup.pending : Lookup α)))).activeRun
      = some ⟨s.currentGen + 1, mkContribs n (delivered res) []⟩ := by
    rw [hstate, mkContribs_nil]
  have hfold := foldSettles_finish cfg (s.currentGen + 1) n res perm [] _ hperm hpermne hact
  have hres : (foldSettles cfg (s.currentGen + 1) res perm
      (step cfg s (Event.submit (List.replicate n (Lookup.pending : Lookup α))))).resolved
      = (applyOverride s).resolved
        ++ [(s.currentGen + 1, ⟨ProcessingStatus.Finished,
             ((List.range n).map (delivered res)).flatten⟩)] := by
    rw [hfold]
    show (step cfg s (Event.submit (List.replicate n (Lookup.pending : Lookup α)))).resolved
        ++ _ = _
    rw [hstate]
  refine ⟨hres, ?_⟩
  unfold outcomeOf
  rw [hres]
  have hkeys : ∀ p ∈ (applyOverride s).resolved, p.1 ≠ s.currentGen + 1 := by
    intro p hp
    have := applyOverride_keys_le s hWF p hp
    omega
  rw [lookup_append_right _ _ _ hkeys, lookup_singleton]

theorem foldSettles_eq_exec (cfg : Config) (g : Nat) (res : Nat → Option (List α))
    (order : List Nat) (s : ProcState α) :
    foldSettles cfg g res order s
      = exec cfg s (order.map fun i => Event.settle g i (res i)) := by
  induction order generalizing s with
  | nil => rfl
  | cons j rest ih =>
    rw [foldSettles_cons]
    exact ih (step cfg s (Event.settle g j (res j)))

theorem foldSteps_settle_noRun (cfg : Config) (s : ProcState α) (g : Nat)
    (late : List (Nat × Option (List α))) (h : s.activeRun = none) :
    late.foldl (fun st p => step cfg st (Event.settle g p.1 p.2)) s = s := by
  induction late with
  | nil => rfl
  | cons p ps ih =>
    rw [List.foldl_cons,
      show step cfg s (Event.settle g p.1 p.2) = s from stepSettle_noRun s g p.1 p.2 h]
    exact ih

theorem step_timerFire (cfg : Config) (s : ProcState α) (g : Nat) :
    step cfg s (Event.timerFire g) = stepTimer s g := rfl

theorem submit_replicate_state_tm (cfg : Config) (s : ProcState α) (n : Nat) (hn : n ≠ 0)
    (htm : cfg.timeout.isSome = true) :
    step cfg s (Event.submit (List.replicate n (Lookup.pending : Lookup α))) =
      { currentGen := s.currentGen + 1,
        activeRun := some ⟨s.currentGen + 1, List.replicate n none⟩,
        resolved := (applyOverride s).resolved,
        timersStarted := s.timersStarted ++ [s.currentGen + 1] } := by
  rw [submit_replicate_state cfg s n hn, htm]
  simp

theorem timer_after_fold (cfg : Config) (g n : Nat) (res : Nat → Option (List α))
    (settled : List Nat) (st : ProcState α)
    (hact : st.activeRun = some ⟨g, mkContribs n (delivered res) []⟩)
    (htm : g ∈ st.timersStarted)
    (hnd : settled.Nodup) (hsub : ∀ i ∈ settled, i < n)
    (hmiss : ∃ j, j < n ∧ j ∉ settled) :
    step cfg (foldSettles cfg g res settled st) (Event.timerFire g)
      = { st with activeRun := none,
                  resolved := st.resolved
                    ++ [(g, ⟨ProcessingStatus.TimedOut,
                         settledResults (mkContribs n (delivered res) settled)⟩)] } := by
  have hfold := foldSettles_pending cfg g n res settled [] st hnd hsub hmiss hact
  rw [hfold, step_timerFire]
  rw [stepTimer_fire
    { st with activeRun := some ⟨g, mkContribs n (delivered res) ([] ++ settled)⟩ }
    ⟨g, mkContribs n (delivered res) ([] ++ settled)⟩ g rfl rfl htm]
  rfl

/-- C1: a run that resolves with status Finished yields the concatenation
of the items of each lookup in the caller-supplied lookup index order
0..n-1, independent of the order in which the lookups settle: submitting
the lookups of batches as pending operations and letting them settle in an
arbitrary permutation perm of the index range resolves the run of the new
generation with Finished and the index-ordered concatenation
batches.flatten. -/
theorem C1_finished_concat_in_index_order (cfg : Config) (s : ProcState α)
    (batches : List (List α)) (perm : List Nat)
    (hWF : WF s) (hne : batches ≠ [])
    (hperm : perm.Perm (List.range batches.length)) :
    outcomeOf (foldSettles cfg (s.currentGen + 1)
        (fun i => some (batches.getD i [])) perm
        (step cfg s (Event.submit (batches.map fun _ => Lookup.pending))))
        (s.currentGen + 1)
      = some ⟨ProcessingStatus.Finished, batches.flatten⟩ := by
  have hmap : (batches.map fun _ => (Lookup.pending : Lookup α))
      = List.replicate batches.length Lookup.pending := List.map_const' batches Lookup.pending
  rw [hmap]
  have hn : batches.length ≠ 0 := by
    intro h0
    exact hne (List.length_eq_zero.mp h0)
  have h2 := (settle_all_resolved cfg s batches.length
    (fun i => some (batches.getD i [])) perm hWF hn hperm).2
  have hdel : delivered (fun i => some (batches.getD i [])) = fun i => batches.getD i [] := rfl
  rw [hdel, range_map_getD] at h2
  exact h2

/-- C4: calling submit while a prior run is in flight resolves the prior
run with Overriden and an empty result sequence, the new generation is
distinct from the overridden one, and the new run resolves per the normal
Finished rules from the newly supplied lookups only, while the overridden
run keeps its Overriden outcome. -/
theorem C4_submit_overrides_prior_run (cfg : Config) (s : ProcState α) (r : RunState α)
    (batches : List (List α)) (perm : List Nat)
    (hWF : WF s) (hact : s.activeRun = some r) (hne : batches ≠ [])
    (hperm : perm.Perm (List.range batches.length)) :
    outcomeOf (step cfg s (Event.submit (batches.map fun _ => Lookup.pending))) r.gen
      = some ⟨ProcessingStatus.Overriden, []⟩
    ∧ r.gen ≠ s.currentGen + 1
    ∧ outcomeOf (foldSettles cfg (s.currentGen + 1)
          (fun i => some (batches.getD i [])) perm
          (step cfg s (Event.submit (batches.map fun _ => Lookup.pending))))
        (s.currentGen + 1)
      = some ⟨ProcessingStatus.Finished, batches.flatten⟩
    ∧ outcomeOf (foldSettles cfg (s.currentGen + 1)
          (fun i => some (batches.getD i [])) perm
          (step cfg s (Event.submit (batches.map fun _ => Lookup.pending))))
        r.gen
      = some ⟨ProcessingStatus.Overriden, []⟩ := by
  have hmap : (batches.map fun _ => (Lookup.pending : Lookup α))
      = List.replicate batches.length Lookup.pending := List.map_const' batches Lookup.pending
  have hn : batches.length ≠ 0 := fun h0 => hne (List.length_eq_zero.mp h0)
  obtain ⟨hgenr, hnot⟩ := hWF.2.2 r (Option.mem_def.mpr hact)
  have hs1res : (step cfg s (Event.submit (batches.map fun _ => Lookup.pending))).resolved
      = s.resolved ++ [(r.gen, ⟨ProcessingStatus.Overriden, []⟩)] := by
    rw [hmap, submit_replicate_state cfg s batches.length hn]
    show (applyOverride s).resolved = _
    rw [applyOverride_run s r hact]
  have h1 : outcomeOf (step cfg s (Event.submit (batches.map fun _ => Lookup.pending))) r.gen
      = some ⟨ProcessingStatus.Overriden, []⟩ := by
    unfold outcomeOf
    rw [hs1res,
      lookup_append_right _ _ _ (fun p hp hpe => hnot (List.mem_map.mpr ⟨p, hp, hpe⟩)),
      lookup_singleton]
  have h3 : outcomeOf (foldSettles cfg (s.currentGen + 1)
        (fun i => some (batches.getD i [])) perm
        (step cfg s (Event.submit (batches.map fun _ => Lookup.pending))))
      (s.currentGen + 1)
      = some ⟨ProcessingStatus.Finished, batches.flatten⟩ := by
    rw [hmap]
    have h2 := (settle_all_resolved cfg s batches.length
      (fun i => some (batches.getD i [])) perm hWF hn hperm).2
    have hdel : delivered (fun i => some (batches.getD i []))
        = fun i => batches.getD i [] := rfl
    rw [hdel, range_map_getD] at h2
    exact h2
  refine ⟨h1, by omega, h3, ?_⟩
  rw [foldSettles_eq_exec]
  exact outcome_stable cfg _ _ r.gen _ h1

/-- C6: a rejected lookup contributes an empty slice at its own index and
changes neither the contributions of the other lookups nor the status of
the run: settling every lookup, the ones listed in fails by rejection and
the others with their items, still resolves the run with Finished, and the
results are the index-ordered concatenation in which exactly the failed
indices contribute the empty list. The settled outcome is always a
ProcessOutcome value; the future never rejects. -/
theorem C6_failed_lookup_contributes_empty_slice (cfg : Config) (s : ProcState α)
    (batches : List (List α)) (fails : List Nat) (perm : List Nat)
    (hWF : WF s) (hne : batches ≠ [])
    (hperm : perm.Perm (List.range batches.length)) :
    outcomeOf (foldSettles cfg (s.currentGen + 1)
        (fun i => if i ∈ fails then none else some (batches.getD i [])) perm
        (step cfg s (Event.submit (batches.map fun _ => Lookup.pending))))
        (s.currentGen + 1)
      = some ⟨ProcessingStatus.Finished,
          ((List.range batches.length).map
            fun i => if i ∈ fails then [] else batches.getD i []).flatten⟩ := by
  have hmap : (batches.map fun _ => (Lookup.pending : Lookup α))
      = List.replicate batches.length Lookup.pending := List.map_const' batches Lookup.pending
  rw [hmap]
  have hn : batches.length ≠ 0 := fun h0 => hne (List.length_eq_zero.mp h0)
  have h2 := (settle_all_resolved cfg s batches.length
    (fun i => if i ∈ fails then none else some (batches.getD i [])) perm hWF hn hperm).2
  have hdel : (List.range batches.length).map
      (delivered fun i => if i ∈ fails then none else some (batches.getD i []))
      = (List.range batches.length).map
        fun i => if i ∈ fails then [] else batches.getD i [] := by
    apply List.map_congr_left
    intro i _
    by_cases h : i ∈ fails <;> simp [delivered, h]
  rw [hdel] at h2
  exact h2

/-- C7: submitting an empty lookup sequence resolves the returned future
within the submit step itself with Finished and an empty result sequence,
starts no timeout timer, and leaves no run in flight. -/
theorem C7_empty_submit_resolves_immediately (cfg : Config) (s : ProcState α) (hWF : WF s) :
    outcomeOf (step cfg s (Event.submit ([] : List (Lookup α)))) (s.currentGen + 1)
      = some ⟨ProcessingStatus.Finished, []⟩
    ∧ (step cfg s (Event.submit ([] : List (Lookup α)))).timersStarted = s.timersStarted
    ∧ (step cfg s (Event.submit ([] : List (Lookup α)))).activeRun = none := by
  have hstep : step cfg s (Event.submit ([] : List (Lookup α)))
      = { currentGen := (applyOverride s).currentGen + 1,
          activeRun := (applyOverride s).activeRun,
          resolved := (applyOverride s).resolved
            ++ [((applyOverride s).currentGen + 1, ⟨ProcessingStatus.Finished, []⟩)],
          timersStarted := (applyOverride s).timersStarted } :=
    stepSubmit_emptyCase cfg s [] rfl
  refine ⟨?_, ?_, ?_⟩
  · unfold outcomeOf
    rw [hstep]
    show List.lookup (s.currentGen + 1)
        ((applyOverride s).resolved
          ++ [((applyOverride s).currentGen + 1, ⟨ProcessingStatus.Finished, []⟩)]) = _
    rw [applyOverride_currentGen]
    have hkeys : ∀ p ∈ (applyOverride s).resolved, p.1 ≠ s.currentGen + 1 := by
      intro p hp
      have := applyOverride_keys_le s hWF p hp
      omega
    rw [lookup_append_right _ _ _ hkeys, lookup_singleton]
  · rw [hstep]
    show (applyOverride s).timersStarted = s.timersStarted
    exact applyOverride_timersStarted s
  · rw [hstep]
    show (applyOverride s).activeRun = none
    exact applyOverride_activeRun s

/-- C8: calling overrideIfProcessing when no run is in flight leaves the
coordinator state untouched; since overrideIfProcessing is a total
function of the state this also covers a freshly constructed coordinator,
with or without a configuration, before any submit. -/
theorem C8_override_without_run_is_noop (cfg : Config) (s : ProcState α)
    (h : s.activeRun = none) : step cfg s Event.override = s :=
  applyOverride_noRun s h

/-- C3: calling overrideIfProcessing while a run is in flight resolves
that run with Overriden and an empty result sequence in the very step of
the override, with pending lookups untouched, retires the run, and the
outcome stays Overriden under every continuation of the execution, so an
overridden run never resolves with Finished or TimedOut. -/
theorem C3_override_resolves_with_overriden (cfg : Config) (s : ProcState α) (r : RunState α)
    (hWF : WF s) (hact : s.activeRun = some r) :
    outcomeOf (step cfg s Event.override) r.gen = some ⟨ProcessingStatus.Overriden, []⟩
    ∧ (step cfg s Event.override).activeRun = none
    ∧ ∀ es : List (Event α),
        outcomeOf (exec cfg (step cfg s Event.override) es) r.gen
          = some ⟨ProcessingStatus.Overriden, []⟩ := by
  have hnot := (hWF.2.2 r (Option.mem_def.mpr hact)).2
  have hstep : step cfg s Event.override
      = { s with activeRun := none,
                 resolved := s.resolved ++ [(r.gen, ⟨ProcessingStatus.Overriden, []⟩)] } :=
    applyOverride_run s r hact
  have h1 : outcomeOf (step cfg s Event.override) r.gen
      = some ⟨ProcessingStatus.Overriden, []⟩ := by
    unfold outcomeOf
    rw [hstep]
    show List.lookup r.gen (s.resolved ++ [(r.gen, ⟨ProcessingStatus.Overriden, []⟩)]) = _
    rw [lookup_append_right _ _ _ (fun p hp hpe => hnot (List.mem_map.mpr ⟨p, hp, hpe⟩)),
      lookup_singleton]
  exact ⟨h1, by rw [hstep], fun es => outcome_stable cfg _ es r.gen _ h1⟩

/-- C5: every run settles its future exactly once, whatever the
interleaving of submits, overrides, lookup settlements and timer fires: in
every state reachable from the initial one, the settlement log contains at
most one entry per generation. -/
theorem C5_single_settlement (cfg : Config) (es : List (Event α)) :
    ((exec cfg (initState α) es).resolved.map Prod.fst).Nodup :=
  (WF_exec cfg (initState α) es (WF_initState α)).2.1

/-- C9: generation isolation. A settlement or timer callback carrying a
generation different from the one of the in-flight run (in particular any
stale generation) leaves the state completely unchanged, so it records no
contribution and performs no settlement; a submit installs, when it leaves
a run in flight at all, only a run carrying the freshly minted generation;
and the generation of the previously current run is strictly below the
freshly minted one, so the previous run is invalidated synchronously by
the very submit step. -/
theorem C9_stale_generation_noop (cfg : Config) (s : ProcState α) (g i : Nat)
    (res : Option (List α))
    (hWF : WF s) (hstale : ∀ r ∈ s.activeRun, r.gen ≠ g) :
    step cfg s (Event.settle g i res) = s
    ∧ step cfg s (Event.timerFire g) = s
    ∧ (∀ (lookups : List (Lookup α)) (r' : RunState α),
        (step cfg s (Event.submit lookups)).activeRun = some r'
          → r'.gen = s.currentGen + 1)
    ∧ ∀ r ∈ s.activeRun, r.gen < s.currentGen + 1 := by
  refine ⟨?_, ?_, ?_, ?_⟩
  · cases hact : s.activeRun with
    | none => exact stepSettle_noRun s g i res hact
    | some r => exact stepSettle_stale s r g i res hact (hstale r (Option.mem_def.mpr hact))
  · cases hact : s.activeRun with
    | none => exact stepTimer_noRun s g hact
    | some r =>
      refine stepTimer_stale s r g hact ?_
      intro hcond
      exact hstale r (Option.mem_def.mpr hact) hcond.1
  · intro lookups r' hr'
    have hr2 : (stepSubmit cfg s lookups).activeRun = some r' := hr'
    by_cases hemp : lookups.isEmpty = true
    · rw [stepSubmit_emptyCase cfg s lookups hemp] at hr2
      have hr3 : (applyOverride s).activeRun = some r' := hr2
      rw [applyOverride_activeRun s] at hr3
      exact absurd hr3 (by simp)
    · have hemp' : lookups.isEmpty = false := by
        cases hval : lookups.isEmpty
        · rfl
        · exact absurd hval hemp
      by_cases hall : (initialContribs lookups).all Option.isSome = true
      · rw [stepSubmit_immediates cfg s lookups hemp' hall] at hr2
        have hr3 : (none : Option (RunState α)) = some r' := hr2
        exact absurd hr3 (by simp)
      · have hall' : (initialContribs lookups).all Option.isSome = false := by
          cases hval : (initialContribs lookups).all Option.isSome
          · rfl
          · exact absurd hval hall
        rw [stepSubmit_inflight cfg s lookups hemp' hall'] at hr2
        have hr3 : some (⟨(applyOverride s).currentGen + 1,
            initialContribs lookups⟩ : RunState α) = some r' := hr2
        have hr4 := Option.some.inj hr3
        rw [← hr4]
        show (applyOverride s).currentGen + 1 = s.currentGen + 1
        rw [applyOverride_currentGen]
  · intro r hr
    have := (hWF.2.2 r hr).1
    omega

/-- C2: when the timeout fires before all lookups of the run have settled,
the run resolves with TimedOut and exactly the items of the lookups that
settled strictly before the timeout, concatenated in lookup index order
with gaps allowed, and every settlement of that generation arriving after
the timeout is ignored: the state does not change at all afterwards. -/
theorem C2_timeout_keeps_presettled_items (cfg : Config) (s : ProcState α)
    (batches : List (List α)) (settled : List Nat)
    (late : List (Nat × Option (List α))) (s1 s2 s3 s4 : ProcState α)
    (hWF : WF s) (htm : cfg.timeout.isSome = true)
    (hnd : settled.Nodup) (hsub : ∀ i ∈ settled, i < batches.length)
    (hmiss : ∃ j, j < batches.length ∧ j ∉ settled)
    (hs1 : s1 = step cfg s (Event.submit (batches.map fun _ => Lookup.pending)))
    (hs2 : s2 = foldSettles cfg (s.currentGen + 1)
        (fun i => some (batches.getD i [])) settled s1)
    (hs3 : s3 = step cfg s2 (Event.timerFire (s.currentGen + 1)))
    (hs4 : s4 = late.foldl
        (fun st p => step cfg st (Event.settle (s.currentGen + 1) p.1 p.2)) s3) :
    outcomeOf s4 (s.currentGen + 1)
      = some ⟨ProcessingStatus.TimedOut,
          (((List.range batches.length).filter fun i => decide (i ∈ settled)).map
            fun i => batches.getD i []).flatten⟩
    ∧ s4 = s3 := by
  subst hs1 hs2 hs3 hs4
  obtain ⟨jm, hjm, hjmnot⟩ := hmiss
  have hn : batches.length ≠ 0 := by omega
  have hmap : (batches.map fun _ => (Lookup.pending : Lookup α))
      = List.replicate batches.length Lookup.pending := List.map_const' batches Lookup.pending
  rw [hmap, submit_replicate_state_tm cfg s batches.length hn htm]
  rw [timer_after_fold cfg (s.currentGen + 1) batches.length
    (fun i => some (batches.getD i [])) settled
    { currentGen := s.currentGen + 1,
      activeRun := some ⟨s.currentGen + 1, List.replicate batches.length none⟩,
      resolved := (applyOverride s).resolved,
      timersStarted := s.timersStarted ++ [s.currentGen + 1] }
    (by rw [mkContribs_nil]) (by show (s.currentGen + 1) ∈ s.timersStarted ++ [s.currentGen + 1]; simp)
    hnd hsub ⟨jm, hjm, hjmnot⟩]
  rw [foldSteps_settle_noRun cfg _ (s.currentGen + 1) late rfl]
  refine ⟨?_, rfl⟩
  unfold outcomeOf
  show List.lookup (s.currentGen + 1)
      ((applyOverride s).resolved ++
        [(s.currentGen + 1,
          ⟨ProcessingStatus.TimedOut,
           settledResults (mkContribs batches.length
             (delivered fun i => some (batches.getD i [])) settled)⟩)]) = _
  have hkeys : ∀ p ∈ (applyOverride s).resolved, p.1 ≠ s.currentGen + 1 := by
    intro p hp
    have := applyOverride_keys_le s hWF p hp
    omega
  rw [lookup_append_right _ _ _ hkeys, lookup_singleton, settledResults_mkContribs]
  rfl

end QueryProcessorModel

namespace DynamicFacetModel

/-- C10: toggleSelect flips selection: afterwards isSelected is the
negation of its value before the call; when the state was selected the
call leaves the state idle and sets preventAutoSelect to true, and
otherwise (idle or any other facet value state) it leaves the state
selected. -/
theorem C10_toggleSelect_flips_selection (v : DynamicFacetValue) :
    v.toggleSelect.isSelected = !v.isSelected
    ∧ (v.state = FacetValueState.selected →
        v.toggleSelect.state = FacetValueState.idle
        ∧ v.toggleSelect.preventAutoSelect = true)
    ∧ (v.state ≠ FacetValueState.selected →
        v.toggleSelect.state = FacetValueState.selected) := by
  obtain ⟨val, st, p, nr, pos, dv⟩ := v
  cases st <;>
    simp [DynamicFacetValue.toggleSelect, DynamicFacetValue.isSelected,
      DynamicFacetValue.select, DynamicFacetValue.deselect]

/-- Evaluation of C10 at a concrete facet value in the idle state. -/
theorem C10_toggleSelect_flips_selection_witness :
    (DynamicFacetValue.mk "peach" FacetValueState.idle false 3 1 "Peach").toggleSelect.isSelected
      = !(DynamicFacetValue.mk "peach" FacetValueState.idle false 3 1 "Peach").isSelected
    ∧ ((DynamicFacetValue.mk "peach" FacetValueState.idle false 3 1 "Peach").state
          = FacetValueState.selected →
        (DynamicFacetValue.mk "peach" FacetValueState.idle false 3 1 "Peach").toggleSelect.state
          = FacetValueState.idle
        ∧ (DynamicFacetValue.mk "peach" FacetValueState.idle false 3 1
            "Peach").toggleSelect.preventAutoSelect = true)
    ∧ ((DynamicFacetValue.mk "peach" FacetValueState.idle false 3 1 "Peach").state
          ≠ FacetValueState.selected →
        (DynamicFacetValue.mk "peach" FacetValueState.idle false 3 1 "Peach").toggleSelect.state
          = FacetValueState.selected) :=
  C10_toggleSelect_flips_selection (DynamicFacetValue.mk "peach" FacetValueState.idle false 3 1 "Peach")

end DynamicFacetModel

namespace QueryProcessorModel

/-- Evaluation of C1 at a concrete run of two lookups that settle in the
reverse of their index order. -/
theorem C1_finished_concat_in_index_order_witness :
    WF (initState Nat)
    ∧ ([[10, 20], [30]] : List (List Nat)) ≠ []
    ∧ ([1, 0] : List Nat).Perm (List.range ([[10, 20], [30]] : List (List Nat)).length)
    ∧ outcomeOf (foldSettles { timeout := none } ((initState Nat).currentGen + 1)
        (fun i => some (([[10, 20], [30]] : List (List Nat)).getD i [])) [1, 0]
        (step { timeout := none } (initState Nat)
          (Event.submit (([[10, 20], [30]] : List (List Nat)).map fun _ => Lookup.pending))))
        ((initState Nat).currentGen + 1)
      = some ⟨ProcessingStatus.Finished, [10, 20, 30]⟩ :=
  ⟨WF_initState Nat, by decide, by decide,
    C1_finished_concat_in_index_order { timeout := none } (initState Nat)
      [[10, 20], [30]] [1, 0] (WF_initState Nat) (by decide) (by decide)⟩

/-- Evaluation of C2 at a concrete run of three lookups of which only the
one at index 1 settles before the timeout, with one late settlement after
it. -/
theorem C2_timeout_keeps_presettled_items_witness :
    WF (initState Nat)
    ∧ (Config.mk (some 15)).timeout.isSome = true
    ∧ ([1] : List Nat).Nodup
    ∧ (∀ i ∈ ([1] : List Nat), i < ([[1], [2], [3]] : List (List Nat)).length)
    ∧ (∃ j, j < ([[1], [2], [3]] : List (List Nat)).length ∧ j ∉ ([1] : List Nat))
    ∧ ({ currentGen := 1, activeRun := some ⟨1, [none, none, none]⟩,
         resolved := [], timersStarted := [1] } : ProcState Nat)
        = step (Config.mk (some 15)) (initState Nat)
            (Event.submit (([[1], [2], [3]] : List (List Nat)).map fun _ => Lookup.pending))
    ∧ ({ currentGen := 1, activeRun := some ⟨1, [none, some [2], none]⟩,
         resolved := [], timersStarted := [1] } : ProcState Nat)
        = foldSettles (Config.mk (some 15)) ((initState Nat).currentGen + 1)
            (fun i => some (([[1], [2], [3]] : List (List Nat)).getD i [])) [1]
            { currentGen := 1, activeRun := some ⟨1, [none, none, none]⟩,
              resolved := [], timersStarted := [1] }
    ∧ ({ currentGen := 1, activeRun := none,
         resolved := [(1, ⟨ProcessingStatus.TimedOut, [2]⟩)], timersStarted := [1] } : ProcState Nat)
        = step (Config.mk (some 15))
            { currentGen := 1, activeRun := some ⟨1, [none, some [2], none]⟩,
              resolved := [], timersStarted := [1] }
            (Event.timerFire ((initState Nat).currentGen + 1))
    ∧ outcomeOf ({ currentGen := 1, activeRun := none,
                   resolved := [(1, ⟨ProcessingStatus.TimedOut, [2]⟩)],
                   timersStarted := [1] } : ProcState Nat) ((initState Nat).currentGen + 1)
      = some ⟨ProcessingStatus.TimedOut, [2]⟩ := by
  have h := C2_timeout_keeps_presettled_items (Config.mk (some 15)) (initState Nat)
    [[1], [2], [3]] [1] [(0, some [7])]
    { currentGen := 1, activeRun := some ⟨1, [none, none, none]⟩,
      resolved := [], timersStarted := [1] }
    { currentGen := 1, activeRun := some ⟨1, [none, some [2], none]⟩,
      resolved := [], timersStarted := [1] }
    { currentGen := 1, activeRun := none,
      resolved := [(1, ⟨ProcessingStatus.TimedOut, [2]⟩)], timersStarted := [1] }
    { currentGen := 1, activeRun := none,
      resolved := [(1, ⟨ProcessingStatus.TimedOut, [2]⟩)], timersStarted := [1] }
    (WF_initState Nat) rfl (by decide) (by decide) ⟨0, by decide⟩
    (by decide) (by decide) (by decide) (by decide)
  exact ⟨WF_initState Nat, rfl, by decide, by decide, ⟨0, by decide⟩,
    by decide, by decide, by decide, h.1⟩

/-- Evaluation of C3: overriding a run with one pending lookup resolves it
with Overriden and no items, and the outcome persists through a later
settlement of that lookup. -/
theorem C3_override_resolves_with_overriden_witness :
    WF (step { timeout := none } (initState Nat) (Event.submit [Lookup.pending]))
    ∧ (step { timeout := none } (initState Nat) (Event.submit [Lookup.pending])).activeRun
        = some ⟨1, [none]⟩
    ∧ outcomeOf (step { timeout := none }
        (step { timeout := none } (initState Nat) (Event.submit [Lookup.pending]))
        Event.override) (1 : Nat)
      = some ⟨ProcessingStatus.Overriden, []⟩
    ∧ outcomeOf (exec { timeout := none }
        (step { timeout := none }
          (step { timeout := none } (initState Nat) (Event.submit [Lookup.pending]))
          Event.override)
        [Event.settle 1 0 (some [9])]) (1 : Nat)
      = some ⟨ProcessingStatus.Overriden, []⟩ := by
  have hwf : WF (step { timeout := none } (initState Nat) (Event.submit [Lookup.pending])) :=
    WF_step { timeout := none } (initState Nat) (Event.submit [Lookup.pending]) (WF_initState Nat)
  have h := C3_override_resolves_with_overriden { timeout := none }
    (step { timeout := none } (initState Nat) (Event.submit [Lookup.pending]))
    ⟨1, [none]⟩ hwf (by decide)
  exact ⟨hwf, by decide, h.1, h.2.2 [Event.settle 1 0 (some [9])]⟩

/-- Evaluation of C4: a second submit while a one-lookup run is in flight
resolves the first run with Overriden and no items, and the new two-lookup
run, settling in reverse index order, resolves with Finished and its own
items in index order. -/
theorem C4_submit_overrides_prior_run_witness :
    WF (step { timeout := none } (initState Nat) (Event.submit [Lookup.pending]))
    ∧ (step { timeout := none } (initState Nat) (Event.submit [Lookup.pending])).activeRun
        = some ⟨1, [none]⟩
    ∧ ([[4], [5]] : List (List Nat)) ≠ []
    ∧ ([1, 0] : List Nat).Perm (List.range ([[4], [5]] : List (List Nat)).length)
    ∧ outcomeOf (step { timeout := none }
        (step { timeout := none } (initState Nat) (Event.submit [Lookup.pending]))
        (Event.submit (([[4], [5]] : List (List Nat)).map fun _ => Lookup.pending))) (1 : Nat)
      = some ⟨ProcessingStatus.Overriden, []⟩
    ∧ outcomeOf (foldSettles { timeout := none }
        ((step { timeout := none } (initState Nat) (Event.submit [Lookup.pending])).currentGen + 1)
        (fun i => some (([[4], [5]] : List (List Nat)).getD i [])) [1, 0]
        (step { timeout := none }
          (step { timeout := none } (initState Nat) (Event.submit [Lookup.pending]))
          (Event.submit (([[4], [5]] : List (List Nat)).map fun _ => Lookup.pending))))
        ((step { timeout := none } (initState Nat) (Event.submit [Lookup.pending])).currentGen + 1)
      = some ⟨ProcessingStatus.Finished, [4, 5]⟩ := by
  have hwf : WF (step { timeout := none } (initState Nat) (Event.submit [Lookup.pending])) :=
    WF_step { timeout := none } (initState Nat) (Event.submit [Lookup.pending]) (WF_initState Nat)
  have h := C4_submit_overrides_prior_run { timeout := none }
    (step { timeout := none } (initState Nat) (Event.submit [Lookup.pending]))
    ⟨1, [none]⟩ [[4], [5]] [1, 0] hwf (by decide) (by decide) (by decide)
  exact ⟨hwf, by decide, by decide, by decide, h.1, h.2.2.1⟩

/-- Evaluation of C5 at a concrete trace mixing a submit, an override, a
second submit, settlements and a timer fire. -/
theorem C5_single_settlement_witness :
    ((exec { timeout := some 5 } (initState Nat)
        [Event.submit [Lookup.pending, Lookup.pending],
         Event.settle 1 1 (some [3]),
         Event.override,
         Event.submit [Lookup.pending],
         Event.settle 1 0 (some [4]),
         Event.timerFire 2,
         Event.settle 2 0 (some [5])]).resolved.map Prod.fst).Nodup :=
  C5_single_settlement { timeout := some 5 }
    [Event.submit [Lookup.pending, Lookup.pending],
     Event.settle 1 1 (some [3]),
     Event.override,
     Event.submit [Lookup.pending],
     Event.settle 1 0 (some [4]),
     Event.timerFire 2,
     Event.settle 2 0 (some [5])]

/-- Evaluation of C6: of three lookups the one at index 1 rejects; the run
still finishes and the failed index contributes the empty slice. -/
theorem C6_failed_lookup_contributes_empty_slice_witness :
    WF (initState Nat)
    ∧ ([[1], [2], [3]] : List (List Nat)) ≠ []
    ∧ ([2, 0, 1] : List Nat).Perm (List.range ([[1], [2], [3]] : List (List Nat)).length)
    ∧ outcomeOf (foldSettles { timeout := none } ((initState Nat).currentGen + 1)
        (fun i => if i ∈ ([1] : List Nat) then none
                  else some (([[1], [2], [3]] : List (List Nat)).getD i [])) [2, 0, 1]
        (step { timeout := none } (initState Nat)
          (Event.submit (([[1], [2], [3]] : List (List Nat)).map fun _ => Lookup.pending))))
        ((initState Nat).currentGen + 1)
      = some ⟨ProcessingStatus.Finished, [1, 3]⟩ :=
  ⟨WF_initState Nat, by decide, by decide,
    C6_failed_lookup_contributes_empty_slice { timeout := none } (initState Nat)
      [[1], [2], [3]] [1] [2, 0, 1] (WF_initState Nat) (by decide) (by decide)⟩

/-- Evaluation of C7: an empty submit on a freshly constructed coordinator
with a configured timeout resolves at once with Finished and no items,
starts no timer and leaves no run in flight. -/
theorem C7_empty_submit_resolves_immediately_witness :
    WF (initState Nat)
    ∧ outcomeOf (step { timeout := some 5 } (initState Nat)
        (Event.submit ([] : List (Lookup Nat)))) ((initState Nat).currentGen + 1)
      = some ⟨ProcessingStatus.Finished, []⟩
    ∧ (step { timeout := some 5 } (initState Nat)
        (Event.submit ([] : List (Lookup Nat)))).timersStarted = (initState Nat).timersStarted
    ∧ (step { timeout := some 5 } (initState Nat)
        (Event.submit ([] : List (Lookup Nat)))).activeRun = none := by
  have h := C7_empty_submit_resolves_immediately { timeout := some 5 } (initState Nat)
    (WF_initState Nat)
  exact ⟨WF_initState Nat, h.1, h.2.1, h.2.2⟩

/-- Evaluation of C8: overriding a freshly constructed coordinator with no
configured timeout changes nothing. -/
theorem C8_override_without_run_is_noop_witness :
    (initState Nat).activeRun = none
    ∧ step { timeout := none } (initState Nat) Event.override = initState Nat :=
  ⟨rfl, C8_override_without_run_is_noop { timeout := none } (initState Nat) rfl⟩

/-- Evaluation of C9: with the run of generation 1 in flight, callbacks
carrying the stale generation 5 leave the state untouched, and a fresh
submit installs only a run of the newly minted generation. -/
theorem C9_stale_generation_noop_witness :
    WF (step { timeout := none } (initState Nat) (Event.submit [Lookup.pending]))
    ∧ step { timeout := none }
        (step { timeout := none } (initState Nat) (Event.submit [Lookup.pending]))
        (Event.settle 5 0 (some [1]))
      = step { timeout := none } (initState Nat) (Event.submit [Lookup.pending])
    ∧ step { timeout := none }
        (step { timeout := none } (initState Nat) (Event.submit [Lookup.pending]))
        (Event.timerFire 5)
      = step { timeout := none } (initState Nat) (Event.submit [Lookup.pending]) := by
  have hwf : WF (step { timeout := none } (initState Nat) (Event.submit [Lookup.pending])) :=
    WF_step { timeout := none } (initState Nat) (Event.submit [Lookup.pending]) (WF_initState Nat)
  have h := C9_stale_generation_noop { timeout := none }
    (step { timeout := none } (initState Nat) (Event.submit [Lookup.pending]))
    5 0 (some [1]) hwf
    (by intro r hr
        rw [Option.mem_def] at hr
        have hr2 : some (⟨1, [none]⟩ : RunState Nat) = some r := hr
        rw [← Option.some.inj hr2]
        decide)
  exact ⟨hwf, h.1, h.2.1⟩

end QueryProcessorModel
